import Mathlib

/-!
# Verification of fabio `main.go`

A shallow embedding of the top-level wiring of the fabio load balancer
(`main.go`): the config merger (`watchBackend`), the no-route HTML watcher
(`watchNoRouteHTML`), route-change logging (`logRoutes`), the dynamic TCP
listener loop (the `tcp-dynamic` case of `startServers`), the SNI dispatch
predicate (`lookupHostMatcher`) and registry backend initialization
(`initBackend`).

External collaborators (the `route`, `registry` and `proxy` packages) are
modelled as abstract function parameters; Go `strings` library helpers are
re-implemented over `List Char` by structural recursion so that every
definition evaluates inside the kernel.
-/

namespace Fabio

/-! ## Go `strings` library model -/

/-- `strings.Split(s, sep)` for a one-character separator `sep`
(the only separators `main.go` uses are `":"` and `"\n"`). -/
def splitChars (sep : Char) : List Char → List (List Char)
  | [] => [[]]
  | c :: cs =>
    let r := splitChars sep cs
    if c = sep then [] :: r
    else
      match r with
      | [] => [[c]]
      | h :: t => (c :: h) :: t

/-- `strings.Split` lifted to `String`. -/
def goSplit (s : String) (sep : Char) : List String :=
  (splitChars sep s.data).map fun l => ⟨l⟩

/-- `strings.Contains(s, sub)` for a one-character `sub`. -/
def goContains (s : String) (c : Char) : Bool :=
  s.data.contains c

/-- `strings.TrimSpace` on the character list. -/
def trimChars (l : List Char) : List Char :=
  ((l.dropWhile Char.isWhitespace).reverse.dropWhile Char.isWhitespace).reverse

/-- `strings.TrimSpace` lifted to `String`. -/
def goTrimSpace (s : String) : String :=
  ⟨trimChars s.data⟩

/-- `strings.Replace(s, old, new, -1)` for a one-character `old`
(`main.go` only replaces the pattern `"\n"`). -/
def replaceChar (pat : Char) (rep : List Char) : List Char → List Char
  | [] => []
  | c :: cs =>
    if c = pat then rep ++ replaceChar pat rep cs
    else c :: replaceChar pat rep cs

/-- `strings.Replace` lifted to `String`. -/
def goReplace (s : String) (pat : Char) (rep : String) : String :=
  ⟨replaceChar pat rep.data s.data⟩

/-! ## Route data model

The fragments of the `route` package that `main.go` reads:
`route.Table` is a map from host key to `route.Routes`; each route holds
targets carrying an options map and a parsed URL. -/

/-- The part of Go's `url.URL` that `main.go` reads: the scheme and the
`host[:port]` component. -/
structure Url where
  scheme : String
  host : String
deriving DecidableEq

/-- The part of `route.Target` that `main.go` reads. `URL` is a Go pointer
and may be nil, hence `Option`. -/
structure Target where
  opts : List (String × String)
  url : Option Url
deriving DecidableEq

/-- The part of `route.Route` that `main.go` reads. -/
structure Route where
  targets : List Target
deriving DecidableEq

/-- `route.Routes`. -/
abbrev Routes := List Route

/-- `route.Table` (`map[string]Routes`), rendered as an association list;
Go map iteration order is unspecified, so theorems about it are stated
via membership. -/
abbrev Table := List (String × Routes)

/-! ## Helpers from `main.go` -/

/-- Inner loop of `unique` with the `keys` set accumulated so far. -/
def uniqueAux (seen : List String) : List String → List String
  | [] => []
  | x :: xs =>
    if x ∈ seen then uniqueAux seen xs
    else x :: uniqueAux (x :: seen) xs

/-- `unique(strSlice)` from `main.go`: first occurrences, in order. -/
def unique (l : List String) : List String :=
  uniqueAux [] l

/-- `difference(a, b)` from `main.go`: elements of `a` that are not in `b`. -/
def difference (a b : List String) : List String :=
  a.filter fun x => !(b.contains x)

/-- Scheme of a target's URL. A nil URL would crash the Go `tableSchemes`
(nil pointer dereference); tables built by `route.NewTable` always carry a
URL, and every theorem touching this helper is used on such targets. -/
def urlScheme (u : Option Url) : String :=
  match u with
  | some u => u.scheme
  | none => ""

/-- `tableSchemes(r)` from `main.go`: the deduplicated list of URL schemes
over all targets of all routes in `r`. -/
def tableSchemes (r : Routes) : List String :=
  unique (r.flatMap fun rt => rt.targets.map fun t => urlScheme t.url)

/-! ## `lookupHostMatcher` (the `https+tcp+sni` SNI dispatch predicate) -/

/-- `lookupHostMatcher(cfg)` from `main.go`, with the table lookup
(`route.GetTable().LookupHost(host, pick)`) abstracted as `lookupHost`.
If the `proto` option is absent, the Go code leaves `proto` at its zero
value `""` unless the URL is non-nil. -/
def lookupHostMatcher (lookupHost : String → Option Target) (host : String) : Bool :=
  match lookupHost host with
  | none => false
  | some t =>
    let proto : String :=
      match t.opts.lookup "proto" with
      | some p => p
      | none =>
        match t.url with
        | some u => u.scheme
        | none => ""
    "tcp" == proto

/-- The spec's effective protocol of a target: the target's `opts["proto"]`
value if present and otherwise the target URL's scheme (`none` when
neither exists). -/
def effectiveProtocol (t : Target) : Option String :=
  match t.opts.lookup "proto" with
  | some p => some p
  | none => t.url.map Url.scheme

/-- Which proxy handles a connection accepted on a `https+tcp+sni` port. -/
inductive ConnHandler where
  | tcpSNIProxy
  | httpProxy
deriving DecidableEq

/-- Modelled from the spec: the dispatch inside
`proxy.ListenAndServeHTTPSTCPSNI` (the `proxy` package is not part of this
file's source): "if SNI resolves to a `tcp` target, hand the raw connection
to (H, SNI mode); otherwise, terminate TLS locally and pass to (F)". -/
def dispatchHTTPSTCPSNI (matcher : String → Bool) (sni : String) : ConnHandler :=
  if matcher sni then ConnHandler.tcpSNIProxy else ConnHandler.httpProxy

/-! ## The `tcp-dynamic` refresh loop -/

/-- The port string built by the `tcp-dynamic` loop for a table key that
contains `':'`: `":" + strings.Split(target, ":")[1]`. -/
def dynPortOf (key : String) : String :=
  ":" ++ (goSplit key ':').getD 1 ""

/-- The `ports` accumulation of one refresh tick: iterate over the table
entries; for a key containing `':'` whose routes' deduplicated scheme list
is exactly `["tcp"]`, append the key's port; apply `unique` after every
entry, as the Go loop does. -/
def computePortsAux (ports : List String) : Table → List String
  | [] => ports
  | (key, rts) :: rest =>
    let ports' :=
      if goContains key ':' then
        let schemes := tableSchemes rts
        if schemes = ["tcp"] then ports ++ [dynPortOf key] else ports
      else ports
    computePortsAux (unique ports') rest

/-- The eligible dynamic ports of a table. -/
def computePorts (t : Table) : List String :=
  computePortsAux [] t

/-- State of the `tcp-dynamic` goroutine between ticks: `lastPorts`. -/
structure DynState where
  lastPorts : List String
deriving DecidableEq

/-- Outcome of one refresh tick: the ports whose proxies are closed
(`proxy.CloseProxy`), the ports on which a dynamic listener is started
(those that were free when probed with `net.Listen`), and the next state.
A port that is busy is skipped (`continue`) but still recorded in
`lastPorts`. -/
def dynTick (free : String → Bool) (table : Table) (s : DynState) :
    List String × List String × DynState :=
  let ports := computePorts table
  let closed := difference s.lastPorts ports
  let opened := ports.filter free
  (closed, opened, ⟨ports⟩)

/-- The port component (text after the first `':'`) of a URL's host. -/
def urlPort (u : Url) : String :=
  ":" ++ (goSplit u.host ':').getD 1 ""

/-- The claim's reading of the spec sentence: the distinct backend ports
referenced by a `tcp`-scheme target, taken from the target URLs. -/
def specDynamicPorts (t : Table) : List String :=
  unique <| t.flatMap fun kr =>
    kr.2.flatMap fun rt =>
      rt.targets.filterMap fun tgt =>
        match tgt.url with
        | some u => if u.scheme = "tcp" then some (urlPort u) else none
        | none => none

/-! ## The config merger (`watchBackend`)

The loop body of `watchBackend` for the default (non-custom) backends is a
deterministic step on the loop variables `(svccfg, mancfg, lastTable)`
plus the `once` guard, driven by one message from either watch channel.
The calls into the `route` and `registry` packages are recorded as an
ordered list of `Action`s; `route.ParseAliases` and `route.NewTable` are
abstracted as environment functions. -/

/-- One message from `registry.Default.WatchServices()` or
`registry.Default.WatchManual()`. -/
inductive Msg where
  | svc (s : String)
  | man (s : String)
deriving DecidableEq

/-- The observable calls one iteration of the merger loop makes, in
program order. `setTable` records both the combined text that produced the
table and the table handed to `route.SetTable`. -/
inductive Action where
  | warnLog
  | registerAliases (aliases : List String)
  | setTable (text : String) (t : Table)
  | logRoutes
  | closeFirst
  | errorLog
deriving DecidableEq

/-- `true` exactly on `Action.setTable`. -/
def Action.isSetTable : Action → Bool
  | .setTable _ _ => true
  | _ => false

/-- `true` exactly on `Action.closeFirst`. -/
def Action.isCloseFirst : Action → Bool
  | .closeFirst => true
  | _ => false

/-- The loop variables of `watchBackend` (default branch). `current` is
the table last handed to `route.SetTable`, kept to state that a failed
parse leaves the published table alone. -/
structure MergerState where
  svccfg : String
  mancfg : String
  lastTable : String
  firstClosed : Bool
  current : Option Table
deriving DecidableEq

/-- The abstracted `route` package functions the merger calls:
`route.ParseAliases` (aliases plus an error flag — on error the Go code
logs and still registers the returned aliases) and `route.NewTable`
(`none` on parse failure). -/
structure MergerEnv where
  parseAliases : String → List String × Bool
  newTable : String → Option Table

/-- The `select` statement: a service message overwrites `svccfg`, a
manual message overwrites `mancfg`. -/
def applyMsg (st : MergerState) : Msg → MergerState
  | .svc s => { st with svccfg := s }
  | .man s => { st with mancfg := s }

/-- `nextTable`: the combined config text
`svccfg + "\n" + mancfg` (manual commands come last and override). -/
def combine (st : MergerState) : String :=
  st.svccfg ++ "\n" ++ st.mancfg

/-- One iteration of the default-backend merger loop. -/
def mergerStep (env : MergerEnv) (st : MergerState) (m : Msg) :
    MergerState × List Action :=
  let st1 := applyMsg st m
  let next := combine st1
  if next = st1.lastTable then
    (st1, [])
  else
    let pa := env.parseAliases next
    let acts0 := (if pa.2 then [Action.warnLog] else []) ++
      [Action.registerAliases pa.1]
    match env.newTable next with
    | none => (st1, acts0 ++ [Action.warnLog])
    | some t =>
      ({ st1 with
          lastTable := next
          firstClosed := true
          current := some t },
        acts0 ++ [Action.setTable next t, Action.logRoutes] ++
          (if st1.firstClosed then [] else [Action.closeFirst]))

/-- The merger loop run over a finite prefix of the message stream,
collecting the actions of every iteration in order. -/
def runMerger (env : MergerEnv) : MergerState → List Msg → MergerState × List Action
  | st, [] => (st, [])
  | st, m :: ms =>
    let s := mergerStep env st m
    let r := runMerger env s.1 ms
    (r.1, s.2 ++ r.2)

/-- The combined texts published by a list of actions, in order. -/
def pubTexts (acts : List Action) : List String :=
  acts.filterMap fun a =>
    match a with
    | .setTable s _ => some s
    | _ => none

/-! ### The custom-backend branch of `watchBackend` -/

/-- One iteration of the custom-backend loop: any received message closes
`first` via `once.Do`; a message other than `"OK"` is additionally logged
as an error. The state is the `once` guard. -/
def customStep (firstClosed : Bool) (msg : String) : Bool × List Action :=
  ((true),
    (if msg = "OK" then [] else [Action.errorLog]) ++
      (if firstClosed then [] else [Action.closeFirst]))

/-- The custom-backend loop over a finite message prefix. -/
def runCustom : Bool → List String → Bool × List Action
  | fc, [] => (fc, [])
  | fc, m :: ms =>
    let s := customStep fc m
    let r := runCustom s.1 ms
    (r.1, s.2 ++ r.2)

/-! ## `logRoutes` -/

/-- `diffmatchpatch.Diff` operation kinds. -/
inductive DiffOp where
  | delete
  | insert
  | equal
deriving DecidableEq

/-- `diffmatchpatch.Diff`. -/
structure Diff where
  op : DiffOp
  text : String
deriving DecidableEq

/-- A log line emitted through the leveled logger. -/
inductive LogEntry where
  | info (msg : String)
  | warn (msg : String)
deriving DecidableEq

/-- `fmtDiff` from `logRoutes`: trim each fragment, skip empty ones,
prefix deletions with `"- "` and insertions with `"+ "` (repeating the
marker after every newline), drop unchanged fragments. -/
def fmtDiff (diffs : List Diff) : String :=
  diffs.foldl
    (fun b d =>
      let t := goTrimSpace d.text
      if t = "" then b
      else
        match d.op with
        | .delete => b ++ "- " ++ goReplace t '\n' "\n- "
        | .insert => b ++ "+ " ++ goReplace t '\n' "\n+ "
        | .equal => b)
    ""

/-- The `"delta"` arm of `logRoutes`: log the formatted diff of `last`
versus `next` unless it is empty. `diffMain` abstracts
`diffmatchpatch.New().DiffMain(last, next, true)`. -/
def logRoutesDelta (diffMain : String → String → List Diff)
    (last next : String) : List LogEntry :=
  let delta := fmtDiff (diffMain last next)
  if delta ≠ "" then [LogEntry.info ("Config updates\n" ++ delta)] else []

/-- `logRoutes(t, last, next, format)`; `dump` stands for `t.Dump()`. The
Go function recurses once with the default format `"delta"` on an unknown
format; that single level of recursion is inlined via `logRoutesDelta`. -/
def logRoutes (dump : String) (diffMain : String → String → List Diff)
    (last next format : String) : List LogEntry :=
  if format = "detail" then
    [LogEntry.info ("Updated config to\n" ++ dump)]
  else if format = "delta" then
    logRoutesDelta diffMain last next
  else if format = "all" then
    [LogEntry.info ("Updated config to\n" ++ next)]
  else
    LogEntry.warn ("Invalid route format " ++ format ++ ". Defaulting to delta") ::
      logRoutesDelta diffMain last next

/-! ## `watchNoRouteHTML` -/

/-- One iteration of `watchNoRouteHTML`: `cur` is the value of the
process-wide cell (`noroute.GetHTML()`), `next` the received value. The
result is the new cell value and whether `noroute.SetHTML` was called. -/
def noRouteStep (cur next : String) : String × Bool :=
  if next = cur then (cur, false) else (next, true)

/-! ## `initBackend` -/

/-- One round of the `initBackend` retry loop as seen from outside:
whether `NewBackend` followed by `Register(nil)` succeeded, the value of
`time.Now()` at the deadline check, and the value of the `shuttingDown`
flag read after the retry sleep. -/
structure InitAttempt where
  result : Bool
  now : Nat
  shutdown : Bool
deriving DecidableEq

/-- The observable effects of the `initBackend` loop. -/
inductive InitAction where
  | warn
  | sleep (d : Nat)
  | fatal
  | exitProcess (code : Nat)
deriving DecidableEq

/-- How the `initBackend` loop ended. -/
inductive InitOutcome where
  | registered
  | fatalTimeout
  | exitShutdown (code : Nat)
deriving DecidableEq

/-- The `initBackend` retry loop over a finite trace of attempt rounds
(`none` when the trace ends with the loop still running):
on success return; on failure log a warning, go fatal when `time.Now()`
is past the deadline, otherwise sleep `retry` and exit with code 1 when
the shutdown flag is set. -/
def initBackendLoop (deadline retry : Nat) :
    List InitAttempt → Option InitOutcome × List InitAction
  | [] => (none, [])
  | a :: rest =>
    if a.result then (some InitOutcome.registered, [])
    else if a.now > deadline then
      (some InitOutcome.fatalTimeout, [InitAction.warn, InitAction.fatal])
    else if a.shutdown then
      (some (InitOutcome.exitShutdown 1),
        [InitAction.warn, InitAction.sleep retry, InitAction.exitProcess 1])
    else
      let r := initBackendLoop deadline retry rest
      (r.1, InitAction.warn :: InitAction.sleep retry :: r.2)

/-- An attempt round after which the `initBackend` loop keeps retrying:
the attempt failed, the deadline has not passed, and the shutdown flag
was clear after the sleep. -/
def initContinues (d : Nat) (a : InitAttempt) : Prop :=
  a.result = false ∧ a.now ≤ d ∧ a.shutdown = false

/-- The attempt round on which the `initBackend` loop ends with a given
outcome. -/
def initTerminal (d : Nat) : InitOutcome → InitAttempt → Prop
  | .registered, a => a.result = true
  | .fatalTimeout, a => a.result = false ∧ d < a.now
  | .exitShutdown c, a => c = 1 ∧ a.result = false ∧ a.now ≤ d ∧ a.shutdown = true

/-- No first-table signal and no publication among `acts`. -/
def noSig (acts : List Action) : Prop :=
  ∀ a ∈ acts, a.isSetTable = false ∧ a.isCloseFirst = false

/-! ## Concrete instances used by witnesses and counterexamples -/

/-- A merger environment whose parses always succeed (empty alias list,
empty table). -/
def exEnvOk : MergerEnv := ⟨fun _ => ([], false), fun _ => some []⟩

/-- A merger environment whose table construction always fails. -/
def exEnvFail : MergerEnv := ⟨fun _ => ([], false), fun _ => none⟩

/-- Fresh merger state as at the top of `watchBackend`. -/
def exState : MergerState := ⟨"", "", "", false, none⟩

/-- Merger state whose last applied text is the combination of two empty
configs. -/
def exStateNl : MergerState := ⟨"", "", "\n", false, none⟩

/-- A diff function producing one non-empty insertion. -/
def exDiffMain : String → String → List Diff := fun _ _ => [⟨DiffOp.insert, "x"⟩]

/-- A table whose only entry has host key `"x:9000"` and a single target
whose URL is `tcp://b:5432`. -/
def exDynTable : Table := [("x:9000", [⟨[⟨[], some ⟨"tcp", "b:5432"⟩⟩]⟩])]

/-! ## Helper lemmas -/

theorem mem_uniqueAux (x : String) (l : List String) : ∀ seen,
    x ∈ uniqueAux seen l ↔ x ∈ l ∧ x ∉ seen := by
  induction l with
  | nil => intro seen; simp [uniqueAux]
  | cons y ys ih =>
    intro seen
    by_cases h : y ∈ seen
    · rw [uniqueAux, if_pos h, ih, List.mem_cons]
      constructor
      · rintro ⟨hx, hs⟩
        exact ⟨Or.inr hx, hs⟩
      · rintro ⟨hxy | hx, hs⟩
        · cases hxy
          exact absurd h hs
        · exact ⟨hx, hs⟩
    · rw [uniqueAux, if_neg h]
      simp only [List.mem_cons, ih, not_or]
      constructor
      · rintro (rfl | ⟨hx, hs⟩)
        · exact ⟨Or.inl rfl, h⟩
        · exact ⟨Or.inr hx, hs.2⟩
      · rintro ⟨rfl | hx, hs⟩
        · exact Or.inl rfl
        · by_cases hxy : x = y
          · exact Or.inl hxy
          · exact Or.inr ⟨hx, hxy, hs⟩

theorem mem_unique (x : String) (l : List String) : x ∈ unique l ↔ x ∈ l := by
  rw [unique, mem_uniqueAux]
  simp

theorem mem_difference (x : String) (a b : List String) :
    x ∈ difference a b ↔ x ∈ a ∧ x ∉ b := by
  simp [difference, List.mem_filter]

theorem mem_computePortsAux (x : String) (t : Table) : ∀ ps,
    x ∈ computePortsAux ps t ↔
      x ∈ ps ∨ ∃ key rts, (key, rts) ∈ t ∧ goContains key ':' = true ∧
        tableSchemes rts = ["tcp"] ∧ x = dynPortOf key := by
  induction t with
  | nil => intro ps; simp [computePortsAux]
  | cons kr rest ih =>
    intro ps
    obtain ⟨key, rts⟩ := kr
    rw [computePortsAux, ih, mem_unique]
    by_cases hc : goContains key ':'
    · by_cases hs : tableSchemes rts = ["tcp"]
      · simp only [hc, hs, if_pos, if_true, List.mem_append, List.mem_cons,
          List.not_mem_nil, or_false, Prod.mk.injEq]
        constructor
        · rintro ((hx | rfl) | ⟨k, r, hmem, h1, h2, h3⟩)
          · exact Or.inl hx
          · exact Or.inr ⟨key, rts, Or.inl ⟨rfl, rfl⟩, hc, hs, rfl⟩
          · exact Or.inr ⟨k, r, Or.inr hmem, h1, h2, h3⟩
        · rintro (hx | ⟨k, r, (⟨rfl, rfl⟩ | hmem), h1, h2, h3⟩)
          · exact Or.inl (Or.inl hx)
          · exact Or.inl (Or.inr h3)
          · exact Or.inr ⟨k, r, hmem, h1, h2, h3⟩
      · simp only [hc, hs, if_true, if_false, List.mem_cons, Prod.mk.injEq]
        constructor
        · rintro (hx | ⟨k, r, hmem, h1, h2, h3⟩)
          · exact Or.inl hx
          · exact Or.inr ⟨k, r, Or.inr hmem, h1, h2, h3⟩
        · rintro (hx | ⟨k, r, (⟨rfl, rfl⟩ | hmem), h1, h2, h3⟩)
          · exact Or.inl hx
          · exact absurd h2 hs
          · exact Or.inr ⟨k, r, hmem, h1, h2, h3⟩
    · simp only [hc, if_false, List.mem_cons, Prod.mk.injEq, Bool.false_eq_true]
      constructor
      · rintro (hx | ⟨k, r, hmem, h1, h2, h3⟩)
        · exact Or.inl hx
        · exact Or.inr ⟨k, r, Or.inr hmem, h1, h2, h3⟩
      · rintro (hx | ⟨k, r, (⟨rfl, rfl⟩ | hmem), h1, h2, h3⟩)
        · exact Or.inl hx
        · rw [h1] at hc
          exact absurd rfl hc
        · exact Or.inr ⟨k, r, hmem, h1, h2, h3⟩

theorem mem_computePorts (x : String) (t : Table) :
    x ∈ computePorts t ↔
      ∃ key rts, (key, rts) ∈ t ∧ goContains key ':' = true ∧
        tableSchemes rts = ["tcp"] ∧ x = dynPortOf key := by
  rw [computePorts, mem_computePortsAux]
  simp

theorem applyMsg_lastTable (st : MergerState) (m : Msg) :
    (applyMsg st m).lastTable = st.lastTable := by
  cases m <;> rfl

theorem applyMsg_firstClosed (st : MergerState) (m : Msg) :
    (applyMsg st m).firstClosed = st.firstClosed := by
  cases m <;> rfl

theorem applyMsg_current (st : MergerState) (m : Msg) :
    (applyMsg st m).current = st.current := by
  cases m <;> rfl

theorem pubTexts_nil : pubTexts [] = [] := rfl

theorem pubTexts_cons_warn (l : List Action) :
    pubTexts (Action.warnLog :: l) = pubTexts l := rfl

theorem pubTexts_cons_register (as : List String) (l : List Action) :
    pubTexts (Action.registerAliases as :: l) = pubTexts l := rfl

theorem pubTexts_cons_set (s : String) (t : Table) (l : List Action) :
    pubTexts (Action.setTable s t :: l) = s :: pubTexts l := rfl

theorem pubTexts_cons_log (l : List Action) :
    pubTexts (Action.logRoutes :: l) = pubTexts l := rfl

theorem pubTexts_cons_close (l : List Action) :
    pubTexts (Action.closeFirst :: l) = pubTexts l := rfl

theorem pubTexts_append (a b : List Action) :
    pubTexts (a ++ b) = pubTexts a ++ pubTexts b := by
  simp [pubTexts]

/-- One iteration either publishes nothing and leaves `lastTable`,
`current` and `firstClosed` alone, or publishes exactly the combined text,
which differs from the previous `lastTable` and becomes the new one. -/
theorem mergerStep_cases (env : MergerEnv) (st : MergerState) (m : Msg) :
    (pubTexts (mergerStep env st m).2 = [] ∧
      (mergerStep env st m).1.lastTable = st.lastTable ∧
      (mergerStep env st m).1.current = st.current ∧
      (mergerStep env st m).1.firstClosed = st.firstClosed) ∨
    (pubTexts (mergerStep env st m).2 = [combine (applyMsg st m)] ∧
      combine (applyMsg st m) ≠ st.lastTable ∧
      (mergerStep env st m).1.lastTable = combine (applyMsg st m) ∧
      (mergerStep env st m).1.firstClosed = true) := by
  by_cases h : combine (applyMsg st m) = (applyMsg st m).lastTable
  · left
    simp only [mergerStep, if_pos h]
    exact ⟨rfl, applyMsg_lastTable st m, applyMsg_current st m, applyMsg_firstClosed st m⟩
  · cases hnt : env.newTable (combine (applyMsg st m)) with
    | none =>
      left
      simp only [mergerStep, if_neg h, hnt]
      refine ⟨?_, applyMsg_lastTable st m, applyMsg_current st m, applyMsg_firstClosed st m⟩
      by_cases hpa : (env.parseAliases (combine (applyMsg st m))).2 <;>
        simp [hpa, pubTexts_append, pubTexts_cons_warn, pubTexts_cons_register, pubTexts_nil]
    | some t =>
      right
      refine ⟨?_, ?_, ?_, ?_⟩
      · simp only [mergerStep, if_neg h, hnt]
        by_cases hpa : (env.parseAliases (combine (applyMsg st m))).2 <;>
          by_cases hfc : (applyMsg st m).firstClosed <;>
          simp [hpa, hfc, pubTexts_append, pubTexts_cons_warn, pubTexts_cons_register,
            pubTexts_cons_set, pubTexts_cons_log, pubTexts_cons_close, pubTexts_nil]
      · rw [applyMsg_lastTable] at h
        exact h
      · simp only [mergerStep, if_neg h, hnt]
      · simp only [mergerStep, if_neg h, hnt]

theorem noSig_append {a b : List Action} (ha : noSig a) (hb : noSig b) :
    noSig (a ++ b) := by
  intro x hx
  rcases List.mem_append.1 hx with h | h
  · exact ha x h
  · exact hb x h

theorem noSig_closeCount {a : List Action} (ha : noSig a) :
    a.countP (fun x => x.isCloseFirst) = 0 := by
  rw [List.countP_eq_zero]
  intro x hx
  simp [(ha x hx).2]

/-- The prefix of one iteration's actions before any publication:
the optional alias warning followed by the `Register` call. -/
theorem noSig_acts0 (env : MergerEnv) (next : String) :
    noSig ((if (env.parseAliases next).2 then [Action.warnLog] else []) ++
      [Action.registerAliases (env.parseAliases next).1]) := by
  by_cases hpa : (env.parseAliases next).2 <;>
    simp [hpa, noSig, Action.isSetTable, Action.isCloseFirst]

/-- Shape of one iteration's actions with respect to publications and the
first-table signal. -/
theorem mergerStep_shape (env : MergerEnv) (st : MergerState) (m : Msg) :
    (noSig (mergerStep env st m).2 ∧
      (mergerStep env st m).1.firstClosed = st.firstClosed) ∨
    (st.firstClosed = false ∧ (mergerStep env st m).1.firstClosed = true ∧
      ∃ pre s t, (mergerStep env st m).2 =
        pre ++ [Action.setTable s t, Action.logRoutes, Action.closeFirst] ∧ noSig pre) ∨
    (st.firstClosed = true ∧ (mergerStep env st m).1.firstClosed = true ∧
      ∃ pre s t, (mergerStep env st m).2 =
        pre ++ [Action.setTable s t, Action.logRoutes] ∧ noSig pre) := by
  by_cases h : combine (applyMsg st m) = (applyMsg st m).lastTable
  · left
    simp only [mergerStep, if_pos h]
    exact ⟨by intro a ha; exact absurd ha (List.not_mem_nil a), applyMsg_firstClosed st m⟩
  · cases hnt : env.newTable (combine (applyMsg st m)) with
    | none =>
      left
      simp only [mergerStep, if_neg h, hnt]
      refine ⟨?_, applyMsg_firstClosed st m⟩
      refine noSig_append (noSig_acts0 env _) ?_
      simp [noSig, Action.isSetTable, Action.isCloseFirst]
    | some t =>
      cases hfc : st.firstClosed with
      | false =>
        right; left
        have hfc1 : (applyMsg st m).firstClosed = false := by
          rw [applyMsg_firstClosed]; exact hfc
        refine ⟨rfl, ?_, ?_⟩
        · simp only [mergerStep, if_neg h, hnt]
        · refine ⟨(if (env.parseAliases (combine (applyMsg st m))).2 then [Action.warnLog]
            else []) ++ [Action.registerAliases (env.parseAliases (combine (applyMsg st m))).1],
            combine (applyMsg st m), t, ?_, noSig_acts0 env _⟩
          simp only [mergerStep, if_neg h, hnt, hfc1, if_false]
          simp
      | true =>
        right; right
        have hfc1 : (applyMsg st m).firstClosed = true := by
          rw [applyMsg_firstClosed]; exact hfc
        refine ⟨rfl, ?_, ?_⟩
        · simp only [mergerStep, if_neg h, hnt]
        · refine ⟨(if (env.parseAliases (combine (applyMsg st m))).2 then [Action.warnLog]
            else []) ++ [Action.registerAliases (env.parseAliases (combine (applyMsg st m))).1],
            combine (applyMsg st m), t, ?_, noSig_acts0 env _⟩
          simp only [mergerStep, if_neg h, hnt, hfc1, if_true]
          simp

theorem runMerger_cons (env : MergerEnv) (st : MergerState) (m : Msg) (ms : List Msg) :
    runMerger env st (m :: ms) =
      ((runMerger env (mergerStep env st m).1 ms).1,
        (mergerStep env st m).2 ++ (runMerger env (mergerStep env st m).1 ms).2) := rfl

/-- The texts handed to `route.SetTable` during a run, prefixed with the
incoming `lastTable`, form a chain of pairwise-distinct neighbours. -/
theorem runMerger_pub_chain (env : MergerEnv) :
    ∀ (ms : List Msg) (st : MergerState),
      List.Chain' (· ≠ ·) (st.lastTable :: pubTexts (runMerger env st ms).2) := by
  intro ms
  induction ms with
  | nil => intro st; simp [runMerger, pubTexts_nil]
  | cons m ms ih =>
    intro st
    rw [runMerger_cons]
    simp only [pubTexts_append]
    rcases mergerStep_cases env st m with ⟨hp, hl, _, _⟩ | ⟨hp, hne, hl, _⟩
    · rw [hp, List.nil_append, ← hl]
      exact ih (mergerStep env st m).1
    · rw [hp, List.cons_append, List.nil_append, List.chain'_cons]
      refine ⟨Ne.symm hne, ?_⟩
      rw [← hl]
      exact ih (mergerStep env st m).1

/-- Signal-count potential: a run closes `first` at most once, and not at
all once `firstClosed` holds. -/
theorem runMerger_close_count (env : MergerEnv) :
    ∀ (ms : List Msg) (st : MergerState),
      (runMerger env st ms).2.countP (fun a => a.isCloseFirst) +
        (if (runMerger env st ms).1.firstClosed then 0 else 1) ≤
        (if st.firstClosed then 0 else 1) := by
  intro ms
  induction ms with
  | nil => intro st; simp [runMerger]
  | cons m ms ih =>
    intro st
    rw [runMerger_cons]
    simp only [List.countP_append]
    rcases mergerStep_shape env st m with ⟨hs, hf⟩ | ⟨hfc, hf, pre, s, t, hacts, hpre⟩ |
      ⟨hfc, hf, pre, s, t, hacts, hpre⟩
    · rw [noSig_closeCount hs, ← hf]
      simpa using ih (mergerStep env st m).1
    · have h1 : (mergerStep env st m).2.countP (fun a => a.isCloseFirst) = 1 := by
        rw [hacts, List.countP_append, noSig_closeCount hpre]
        rfl
      have h2 := ih (mergerStep env st m).1
      rw [hf] at h2
      simp only [if_true] at h2
      rw [h1, hfc, if_neg Bool.false_ne_true]
      omega
    · have h1 : (mergerStep env st m).2.countP (fun a => a.isCloseFirst) = 0 := by
        rw [hacts, List.countP_append, noSig_closeCount hpre]
        rfl
      have h2 := ih (mergerStep env st m).1
      rw [hf] at h2
      simp only [if_true] at h2
      rw [h1, hfc, if_pos rfl]
      omega

/-- In a run that starts before the first signal, the signal happens right
after the first publication (and its `logRoutes` line). -/
theorem runMerger_first_decomp (env : MergerEnv) :
    ∀ (ms : List Msg) (st : MergerState), st.firstClosed = false →
      (∃ a ∈ (runMerger env st ms).2, a.isSetTable = true) →
      ∃ pre s t post,
        (runMerger env st ms).2 =
          pre ++ Action.setTable s t :: Action.logRoutes :: Action.closeFirst :: post ∧
        noSig pre := by
  intro ms
  induction ms with
  | nil =>
    intro st _ hex
    rcases hex with ⟨a, ha, _⟩
    exact absurd ha (List.not_mem_nil a)
  | cons m ms ih =>
    intro st hfc hex
    rw [runMerger_cons] at hex ⊢
    rcases mergerStep_shape env st m with ⟨hs, hf⟩ | ⟨_, hf, pre, s, t, hacts, hpre⟩ |
      ⟨hfc', _, _⟩
    · have hex' : ∃ a ∈ (runMerger env (mergerStep env st m).1 ms).2, a.isSetTable = true := by
        rcases hex with ⟨a, ha, hset⟩
        rcases List.mem_append.1 ha with h | h
        · exact absurd hset (by simp [(hs a h).1])
        · exact ⟨a, h, hset⟩
      have hf' : (mergerStep env st m).1.firstClosed = false := by rw [hf]; exact hfc
      rcases ih (mergerStep env st m).1 hf' hex' with ⟨pre, s, t, post, heq, hpre⟩
      refine ⟨(mergerStep env st m).2 ++ pre, s, t, post, ?_, noSig_append hs hpre⟩
      rw [heq, List.append_assoc]
    · refine ⟨pre, s, t, (runMerger env (mergerStep env st m).1 ms).2, ?_, hpre⟩
      rw [hacts]
      simp
    · rw [hfc'] at hfc
      exact absurd hfc (by simp)

/-- The custom-backend loop closes `first` at most once. -/
theorem runCustom_close_count :
    ∀ (cs : List String) (fc : Bool),
      (runCustom fc cs).2.countP (fun a => a.isCloseFirst) ≤
        if fc then 0 else 1 := by
  intro cs
  induction cs with
  | nil => intro fc; simp [runCustom]
  | cons c cs ih =>
    intro fc
    have hstep : runCustom fc (c :: cs) =
        ((runCustom true cs).1, (customStep fc c).2 ++ (runCustom true cs).2) := rfl
    rw [hstep]
    simp only [List.countP_append]
    have h1 : (customStep fc c).2.countP (fun a => a.isCloseFirst) =
        if fc then 0 else 1 := by
      cases fc <;> by_cases hc : c = "OK" <;> simp [customStep, hc] <;> rfl
    have h2 := ih true
    simp only [if_true] at h2
    rw [h1]
    cases fc <;> simp_all

/-- The `initBackend` loop ends with outcome `o` exactly when the trace
splits into a prefix of retried rounds followed by a round on which `o`'s
terminal condition holds. -/
theorem initBackendLoop_eq_some_iff (d r : Nat) (o : InitOutcome) :
    ∀ steps : List InitAttempt,
      (initBackendLoop d r steps).1 = some o ↔
        ∃ pre a post, steps = pre ++ a :: post ∧
          (∀ p ∈ pre, initContinues d p) ∧ initTerminal d o a := by
  intro steps
  constructor
  · induction steps with
    | nil => intro h; exact absurd h (by simp [initBackendLoop])
    | cons a rest ih =>
      intro h
      by_cases hres : a.result
      · refine ⟨[], a, rest, rfl, by simp, ?_⟩
        rw [initBackendLoop, if_pos hres] at h
        cases h
        exact hres
      · by_cases hnow : a.now > d
        · rw [initBackendLoop, if_neg hres, if_pos hnow] at h
          cases h
          exact ⟨[], a, rest, rfl, by simp, by
            simp only [initTerminal]
            exact ⟨Bool.eq_false_iff.2 hres, hnow⟩⟩
        · by_cases hsd : a.shutdown
          · rw [initBackendLoop, if_neg hres, if_neg hnow, if_pos hsd] at h
            cases h
            exact ⟨[], a, rest, rfl, by simp, by
              simp only [initTerminal]
              exact ⟨by trivial, Bool.eq_false_iff.2 hres, Nat.le_of_not_lt hnow, hsd⟩⟩
          · rw [initBackendLoop, if_neg hres, if_neg hnow, if_neg hsd] at h
            rcases ih h with ⟨pre, b, post, heq, hpre, hterm⟩
            refine ⟨a :: pre, b, post, by rw [heq]; rfl, ?_, hterm⟩
            intro p hp
            rcases List.mem_cons.1 hp with rfl | hp
            · exact ⟨Bool.eq_false_iff.2 hres, Nat.le_of_not_lt hnow,
                Bool.eq_false_iff.2 hsd⟩
            · exact hpre p hp
  · rintro ⟨pre, a, post, rfl, hpre, hterm⟩
    induction pre with
    | nil =>
      cases o with
      | registered =>
        have hres : a.result = true := hterm
        rw [List.nil_append, initBackendLoop, if_pos hres]
      | fatalTimeout =>
        rcases hterm with ⟨hres, hnow⟩
        have hres' : ¬ a.result = true := by simp [hres]
        rw [List.nil_append, initBackendLoop, if_neg hres', if_pos hnow]
      | exitShutdown c =>
        rcases hterm with ⟨rfl, hres, hnow, hsd⟩
        have hres' : ¬ a.result = true := by simp [hres]
        rw [List.nil_append, initBackendLoop, if_neg hres',
          if_neg (Nat.not_lt.2 hnow), if_pos hsd]
    | cons p pre ih =>
      rcases hpre p (List.mem_cons_self p pre) with ⟨hres, hnow, hsd⟩
      have hres' : ¬ p.result = true := by simp [hres]
      have hsd' : ¬ p.shutdown = true := by simp [hsd]
      have heval : (initBackendLoop d r ((p :: pre) ++ a :: post)).1 =
          (initBackendLoop d r (pre ++ a :: post)).1 := by
        rw [List.cons_append, initBackendLoop, if_neg hres',
          if_neg (Nat.not_lt.2 hnow), if_neg hsd']
      rw [heval]
      exact ih fun q hq => hpre q (List.mem_cons.2 (Or.inr hq))

/-- Every sleep the `initBackend` loop performs has duration `retry`. -/
theorem initBackendLoop_sleep (d r : Nat) :
    ∀ (steps : List InitAttempt) (dur : Nat),
      InitAction.sleep dur ∈ (initBackendLoop d r steps).2 → dur = r := by
  intro steps
  induction steps with
  | nil => intro dur h; exact absurd h (by simp [initBackendLoop])
  | cons a rest ih =>
    intro dur h
    by_cases hres : a.result
    · rw [initBackendLoop, if_pos hres] at h
      exact absurd h (by simp)
    · by_cases hnow : a.now > d
      · rw [initBackendLoop, if_neg hres, if_pos hnow] at h
        simp at h
      · by_cases hsd : a.shutdown
        · rw [initBackendLoop, if_neg hres, if_neg hnow, if_pos hsd] at h
          simp at h
          exact h
        · rw [initBackendLoop, if_neg hres, if_neg hnow, if_neg hsd] at h
          simp only [List.mem_cons] at h
          rcases h with h | h | h
          · exact absurd h (by simp)
          · exact (InitAction.sleep.injEq dur r).mp h
          · exact ih dur h

/-! ## Claim theorems -/

/-- C1: on every message on either stream the merger combines the latest
service text and latest manual text as `svc + "\n" + man`; when the
combined text equals the last applied text the iteration does nothing
(no alias registration, no parse, no publication — the action list is
empty and only the stored stream texts change); consequently, in any run
the published texts never repeat their immediate predecessor, giving at
most one publication per distinct combined input. -/
theorem watchBackend_skip_and_distinct_publications
    (env : MergerEnv) (st : MergerState) (m : Msg) (ms : List Msg) :
    (∀ s, combine (applyMsg st (Msg.svc s)) = s ++ "\n" ++ st.mancfg) ∧
    (∀ s, combine (applyMsg st (Msg.man s)) = st.svccfg ++ "\n" ++ s) ∧
    (combine (applyMsg st m) = st.lastTable →
      mergerStep env st m = (applyMsg st m, [])) ∧
    List.Chain' (· ≠ ·) (pubTexts (runMerger env st ms).2) := by
  refine ⟨fun s => rfl, fun s => rfl, ?_, ?_⟩
  · intro h
    have h' : combine (applyMsg st m) = (applyMsg st m).lastTable := by
      rw [applyMsg_lastTable]
      exact h
    simp only [mergerStep, if_pos h']
  · exact (runMerger_pub_chain env ms st).tail

/-- Witness for C1 at a concrete state where the combined text equals the
last applied text. -/
theorem watchBackend_skip_witness :
    combine (applyMsg exStateNl (Msg.svc "")) = exStateNl.lastTable ∧
    mergerStep exEnvOk exStateNl (Msg.svc "") = (applyMsg exStateNl (Msg.svc ""), []) :=
  ⟨by decide,
    (watchBackend_skip_and_distinct_publications exEnvOk exStateNl (Msg.svc "") []).2.2.1
      (by decide)⟩

/-- C2: when the combined text is new but table construction fails, the
iteration logs a warning and does not publish: `route.SetTable` is not
called, the previously published table stays current, the last applied
text is unchanged, and the first-table signal state is untouched (the
loop continues; nothing terminates the process). -/
theorem watchBackend_parse_failure_keeps_table
    (env : MergerEnv) (st : MergerState) (m : Msg)
    (hne : combine (applyMsg st m) ≠ st.lastTable)
    (hfail : env.newTable (combine (applyMsg st m)) = none) :
    (mergerStep env st m).1.lastTable = st.lastTable ∧
    (mergerStep env st m).1.current = st.current ∧
    Action.warnLog ∈ (mergerStep env st m).2 ∧
    (∀ s t, Action.setTable s t ∉ (mergerStep env st m).2) ∧
    (mergerStep env st m).1.firstClosed = st.firstClosed := by
  have h' : ¬ combine (applyMsg st m) = (applyMsg st m).lastTable := by
    rw [applyMsg_lastTable]
    exact hne
  refine ⟨?_, ?_, ?_, ?_, ?_⟩
  · simp only [mergerStep, if_neg h', hfail]
    exact applyMsg_lastTable st m
  · simp only [mergerStep, if_neg h', hfail]
    exact applyMsg_current st m
  · simp only [mergerStep, if_neg h', hfail]
    exact List.mem_append.2 (Or.inr (by simp))
  · intro s t hmem
    simp only [mergerStep, if_neg h', hfail] at hmem
    rcases List.mem_append.1 hmem with h | h
    · have := (noSig_acts0 env (combine (applyMsg st m)) _ h).1
      simp [Action.isSetTable] at this
    · simp at h
  · simp only [mergerStep, if_neg h', hfail]
    exact applyMsg_firstClosed st m

/-- Witness for C2 at a concrete failing environment. -/
theorem watchBackend_parse_failure_witness :
    combine (applyMsg exState (Msg.svc "a")) ≠ exState.lastTable ∧
    exEnvFail.newTable (combine (applyMsg exState (Msg.svc "a"))) = none ∧
    (mergerStep exEnvFail exState (Msg.svc "a")).1.lastTable = exState.lastTable ∧
    Action.warnLog ∈ (mergerStep exEnvFail exState (Msg.svc "a")).2 := by
  refine ⟨by decide, by decide, ?_, ?_⟩
  · exact (watchBackend_parse_failure_keeps_table exEnvFail exState (Msg.svc "a")
      (by decide) (by decide)).1
  · exact (watchBackend_parse_failure_keeps_table exEnvFail exState (Msg.svc "a")
      (by decide) (by decide)).2.2.1

/-- C3: the first-table signal (`close(first)` under `once.Do`) fires at
most once in any run of either branch of `watchBackend`; in the default
branch, starting before the signal, it fires exactly on the first
successful publication: the run's actions decompose into a
signal-and-publication-free prefix followed by `SetTable`, the route log,
and the signal. -/
theorem watchBackend_first_signal_once
    (env : MergerEnv) (st : MergerState) (ms : List Msg) (fc : Bool)
    (cs : List String) :
    (runMerger env st ms).2.countP (fun a => a.isCloseFirst) ≤ 1 ∧
    (runCustom fc cs).2.countP (fun a => a.isCloseFirst) ≤ 1 ∧
    (st.firstClosed = false →
      (∃ a ∈ (runMerger env st ms).2, a.isSetTable = true) →
      ∃ pre s t post,
        (runMerger env st ms).2 =
          pre ++ Action.setTable s t :: Action.logRoutes :: Action.closeFirst :: post ∧
        noSig pre) := by
  refine ⟨?_, ?_, runMerger_first_decomp env ms st⟩
  · have h := runMerger_close_count env ms st
    have h2 : (runMerger env st ms).2.countP (fun a => a.isCloseFirst) ≤
        if st.firstClosed then 0 else 1 :=
      le_trans (Nat.le_add_right _ _) h
    exact le_trans h2 (by cases st.firstClosed <;> simp)
  · exact le_trans (runCustom_close_count cs fc) (by cases fc <;> simp)

/-- Witness for C3 on a run with one successful publication. -/
theorem watchBackend_first_signal_witness :
    exState.firstClosed = false ∧
    (∃ a ∈ (runMerger exEnvOk exState [Msg.svc "a"]).2, a.isSetTable = true) ∧
    ∃ pre s t post,
      (runMerger exEnvOk exState [Msg.svc "a"]).2 =
        pre ++ Action.setTable s t :: Action.logRoutes :: Action.closeFirst :: post ∧
      noSig pre := by
  refine ⟨rfl, by decide, ?_⟩
  exact (watchBackend_first_signal_once exEnvOk exState [Msg.svc "a"] false []).2.2
    rfl (by decide)

/-- C4: `logRoutes` logs the table dump for `"detail"`, the full new
config for `"all"`, the trimmed diff of last versus next for `"delta"`
(nothing when that diff is empty), and for any other format logs a
warning and then behaves exactly as `"delta"`. -/
theorem logRoutes_formats (dump : String) (dm : String → String → List Diff)
    (last next fmt : String) :
    logRoutes dump dm last next "detail" =
      [LogEntry.info ("Updated config to\n" ++ dump)] ∧
    logRoutes dump dm last next "all" =
      [LogEntry.info ("Updated config to\n" ++ next)] ∧
    (fmtDiff (dm last next) = "" → logRoutes dump dm last next "delta" = []) ∧
    (fmtDiff (dm last next) ≠ "" →
      logRoutes dump dm last next "delta" =
        [LogEntry.info ("Config updates\n" ++ fmtDiff (dm last next))]) ∧
    (fmt ≠ "detail" → fmt ≠ "delta" → fmt ≠ "all" →
      logRoutes dump dm last next fmt =
        LogEntry.warn ("Invalid route format " ++ fmt ++ ". Defaulting to delta") ::
          logRoutes dump dm last next "delta") := by
  refine ⟨rfl, ?_, ?_, ?_, ?_⟩
  · rfl
  · intro h
    simp [logRoutes, logRoutesDelta, h]
  · intro h
    simp [logRoutes, logRoutesDelta, h]
  · intro h1 h2 h3
    simp only [logRoutes, if_neg h1, if_neg h2, if_neg h3]
    simp

/-- Witness for C4 on a concrete unknown format and non-empty diff. -/
theorem logRoutes_formats_witness :
    fmtDiff (exDiffMain "" "n") ≠ "" ∧
    logRoutes "d" exDiffMain "" "n" "delta" =
      [LogEntry.info ("Config updates\n" ++ fmtDiff (exDiffMain "" "n"))] ∧
    logRoutes "d" exDiffMain "" "n" "bogus" =
      LogEntry.warn ("Invalid route format " ++ "bogus" ++ ". Defaulting to delta") ::
        logRoutes "d" exDiffMain "" "n" "delta" := by
  refine ⟨by decide, ?_, ?_⟩
  · exact (logRoutes_formats "d" exDiffMain "" "n" "bogus").2.2.2.1 (by decide)
  · exact (logRoutes_formats "d" exDiffMain "" "n" "bogus").2.2.2.2
      (by decide) (by decide) (by decide)

/-- C5: one iteration of `watchNoRouteHTML` replaces the process-wide
no-route HTML cell exactly when the received value differs from the
stored one; the resulting cell always holds the received value, which
equals the old one in the unchanged case. -/
theorem watchNoRouteHTML_set_iff_changed (cur next : String) :
    (noRouteStep cur next).1 = next ∧
    ((noRouteStep cur next).2 = true ↔ next ≠ cur) := by
  by_cases h : next = cur <;> simp [noRouteStep, h]

/-- C7: the SNI dispatch predicate holds exactly when host lookup yields
a target whose effective protocol — `opts["proto"]` if present, the URL
scheme otherwise — is `"tcp"`; a true matcher sends the raw connection to
the TCP+SNI proxy and a false matcher to the HTTP proxy. -/
theorem lookupHostMatcher_tcp_iff (lookupHost : String → Option Target)
    (host : String) :
    (lookupHostMatcher lookupHost host = true ↔
      ∃ t, lookupHost host = some t ∧ effectiveProtocol t = some "tcp") ∧
    (∀ matcher sni, dispatchHTTPSTCPSNI matcher sni = ConnHandler.tcpSNIProxy ↔
      matcher sni = true) ∧
    (∀ matcher sni, dispatchHTTPSTCPSNI matcher sni = ConnHandler.httpProxy ↔
      matcher sni = false) := by
  refine ⟨?_, ?_, ?_⟩
  · cases hl : lookupHost host with
    | none => simp [lookupHostMatcher, hl]
    | some t =>
      cases hp : t.opts.lookup "proto" with
      | some p =>
        simp only [lookupHostMatcher, effectiveProtocol, hl, hp, beq_iff_eq,
          Option.some.injEq, exists_eq_left']
        constructor <;> exact fun h => h.symm
      | none =>
        cases hu : t.url with
        | none => simp [lookupHostMatcher, effectiveProtocol, hl, hp, hu]
        | some u =>
          simp only [lookupHostMatcher, effectiveProtocol, hl, hp, hu, beq_iff_eq,
            Option.map_some', Option.some.injEq, exists_eq_left']
          constructor <;> exact fun h => h.symm
  · intro matcher sni
    by_cases h : matcher sni <;> simp [dispatchHTTPSTCPSNI, h]
  · intro matcher sni
    by_cases h : matcher sni <;> simp [dispatchHTTPSTCPSNI, h]

/-- C9: for a new combined text the merger registers the parsed aliases
with the registry before any table is constructed or published: the
`Register` call precedes every `SetTable` action, and it happens even
when table construction fails (in which case nothing is published). -/
theorem watchBackend_register_before_table
    (env : MergerEnv) (st : MergerState) (m : Msg)
    (hne : combine (applyMsg st m) ≠ st.lastTable) :
    ∃ pre post,
      (mergerStep env st m).2 =
        pre ++ Action.registerAliases
          (env.parseAliases (combine (applyMsg st m))).1 :: post ∧
      (∀ a ∈ pre, a.isSetTable = false) ∧
      (env.newTable (combine (applyMsg st m)) = none →
        ∀ s t, Action.setTable s t ∉ (mergerStep env st m).2) := by
  have h' : ¬ combine (applyMsg st m) = (applyMsg st m).lastTable := by
    rw [applyMsg_lastTable]
    exact hne
  cases hnt : env.newTable (combine (applyMsg st m)) with
  | none =>
    refine ⟨(if (env.parseAliases (combine (applyMsg st m))).2 then [Action.warnLog]
        else []), [Action.warnLog], ?_, ?_, ?_⟩
    · simp only [mergerStep, if_neg h', hnt]
      simp
    · by_cases hpa : (env.parseAliases (combine (applyMsg st m))).2 <;>
        simp [hpa, Action.isSetTable]
    · intro _ s t hmem
      simp only [mergerStep, if_neg h', hnt] at hmem
      rcases List.mem_append.1 hmem with h | h
      · have := (noSig_acts0 env (combine (applyMsg st m)) _ h).1
        simp [Action.isSetTable] at this
      · simp at h
  | some t =>
    refine ⟨(if (env.parseAliases (combine (applyMsg st m))).2 then [Action.warnLog]
        else []),
      [Action.setTable (combine (applyMsg st m)) t, Action.logRoutes] ++
        (if (applyMsg st m).firstClosed then [] else [Action.closeFirst]), ?_, ?_, ?_⟩
    · simp only [mergerStep, if_neg h', hnt]
      simp
    · by_cases hpa : (env.parseAliases (combine (applyMsg st m))).2 <;>
        simp [hpa, Action.isSetTable]
    · intro hnone
      exact absurd hnone (by simp)

/-- Witness for C9 on a concrete new combined text with failing parse. -/
theorem watchBackend_register_witness :
    combine (applyMsg exState (Msg.svc "a")) ≠ exState.lastTable ∧
    ∃ pre post,
      (mergerStep exEnvFail exState (Msg.svc "a")).2 =
        pre ++ Action.registerAliases
          (exEnvFail.parseAliases (combine (applyMsg exState (Msg.svc "a")))).1 :: post ∧
      (∀ a ∈ pre, a.isSetTable = false) ∧
      (exEnvFail.newTable (combine (applyMsg exState (Msg.svc "a"))) = none →
        ∀ s t, Action.setTable s t ∉ (mergerStep exEnvFail exState (Msg.svc "a")).2) :=
  ⟨by decide,
    watchBackend_register_before_table exEnvFail exState (Msg.svc "a") (by decide)⟩

/-- C10: in the custom-backend branch every received message — whatever
its content — marks the once-guard done and, if it was the first, closes
`first`; a message other than `"OK"` is logged as an error but unblocks
listener startup exactly as an `"OK"` message does. -/
theorem watchBackend_custom_first_regardless (fc : Bool) (msg : String) :
    (customStep fc msg).1 = true ∧
    (Action.closeFirst ∈ (customStep fc msg).2 ↔ fc = false) ∧
    ((customStep fc msg).2.filter (fun a => a.isCloseFirst) =
      (customStep fc "OK").2.filter (fun a => a.isCloseFirst)) ∧
    (Action.errorLog ∈ (customStep fc msg).2 ↔ msg ≠ "OK") := by
  refine ⟨rfl, ?_, ?_, ?_⟩ <;>
    by_cases hm : msg = "OK" <;> cases fc <;>
      simp [customStep, hm, Action.isCloseFirst]

/-- C6 counterexample: in `exDynTable` the only `tcp`-scheme target has
backend port `5432`, every port is free, yet the tick opens a listener
only on `:9000` — the port taken from the route's host key — and not on
the backend port `:5432`. The claim, read on target URLs, is false. -/
theorem tcpDynamic_backend_port_counterexample :
    ":5432" ∈ specDynamicPorts exDynTable ∧
    ":5432" ∉ (dynTick (fun _ => true) exDynTable ⟨[]⟩).2.1 ∧
    (dynTick (fun _ => true) exDynTable ⟨[]⟩).2.1 = [":9000"] ∧
    (dynTick (fun _ => true) exDynTable ⟨[]⟩).1 = [] := by
  decide

/-- C6 amended: on each tick the loop opens a dynamic listener on every
free port drawn from a table host key that contains `':'` and whose
routes' deduplicated target-URL scheme list is exactly `["tcp"]` — the
port is the text of the key after its first `':'`, not the backend URL
port — and closes every port of the previous scan that is no longer
eligible; the new scan is remembered as `lastPorts`. -/
theorem tcpDynamic_tick_characterization (free : String → Bool) (table : Table)
    (s : DynState) (p : String) :
    (p ∈ (dynTick free table s).2.1 ↔ p ∈ computePorts table ∧ free p = true) ∧
    (p ∈ (dynTick free table s).1 ↔ p ∈ s.lastPorts ∧ p ∉ computePorts table) ∧
    ((dynTick free table s).2.2.lastPorts = computePorts table) ∧
    (p ∈ computePorts table ↔
      ∃ key rts, (key, rts) ∈ table ∧ goContains key ':' = true ∧
        tableSchemes rts = ["tcp"] ∧ p = dynPortOf key) := by
  refine ⟨?_, ?_, rfl, mem_computePorts p table⟩
  · simp [dynTick, List.mem_filter]
  · exact mem_difference p s.lastPorts (computePorts table)

/-- C8: the `initBackend` loop retries failed backend creation or
registration; it ends fatally exactly when a failed attempt falls past
the deadline `start + timeout` after a (possibly empty) prefix of failed,
in-time, shutdown-free rounds; it exits exactly with code 1 when the
shutdown flag is seen set after a retry sleep; it returns exactly when an
attempt succeeds after such a prefix; and every sleep it performs lasts
`retry`. -/
theorem initBackend_retry_behaviour (start timeout retry : Nat)
    (steps : List InitAttempt) :
    ((initBackendLoop (start + timeout) retry steps).1 =
        some InitOutcome.fatalTimeout ↔
      ∃ pre a post, steps = pre ++ a :: post ∧
        (∀ p ∈ pre, initContinues (start + timeout) p) ∧
        a.result = false ∧ start + timeout < a.now) ∧
    ((initBackendLoop (start + timeout) retry steps).1 =
        some (InitOutcome.exitShutdown 1) ↔
      ∃ pre a post, steps = pre ++ a :: post ∧
        (∀ p ∈ pre, initContinues (start + timeout) p) ∧
        a.result = false ∧ a.now ≤ start + timeout ∧ a.shutdown = true) ∧
    (∀ c, (initBackendLoop (start + timeout) retry steps).1 =
        some (InitOutcome.exitShutdown c) → c = 1) ∧
    ((initBackendLoop (start + timeout) retry steps).1 =
        some InitOutcome.registered ↔
      ∃ pre a post, steps = pre ++ a :: post ∧
        (∀ p ∈ pre, initContinues (start + timeout) p) ∧ a.result = true) ∧
    (∀ d, InitAction.sleep d ∈ (initBackendLoop (start + timeout) retry steps).2 →
      d = retry) := by
  refine ⟨?_, ?_, ?_, ?_, initBackendLoop_sleep (start + timeout) retry steps⟩
  · rw [initBackendLoop_eq_some_iff]
    constructor
    · rintro ⟨pre, a, post, heq, hpre, hterm⟩
      exact ⟨pre, a, post, heq, hpre, hterm.1, hterm.2⟩
    · rintro ⟨pre, a, post, heq, hpre, h1, h2⟩
      exact ⟨pre, a, post, heq, hpre, h1, h2⟩
  · rw [initBackendLoop_eq_some_iff]
    constructor
    · rintro ⟨pre, a, post, heq, hpre, hterm⟩
      exact ⟨pre, a, post, heq, hpre, hterm.2.1, hterm.2.2.1, hterm.2.2.2⟩
    · rintro ⟨pre, a, post, heq, hpre, h1, h2, h3⟩
      exact ⟨pre, a, post, heq, hpre, rfl, h1, h2, h3⟩
  · intro c hc
    rcases (initBackendLoop_eq_some_iff (start + timeout) retry
      (InitOutcome.exitShutdown c) steps).1 hc with ⟨_, a, _, _, _, hterm⟩
    exact hterm.1
  · rw [initBackendLoop_eq_some_iff]
    constructor
    · rintro ⟨pre, a, post, heq, hpre, hterm⟩
      exact ⟨pre, a, post, heq, hpre, hterm⟩
    · rintro ⟨pre, a, post, heq, hpre, h1⟩
      exact ⟨pre, a, post, heq, hpre, h1⟩

/-- Witness for C8: a failed in-time round followed by a failed round
past the deadline gives the fatal outcome, and the sleep slept `retry`. -/
theorem initBackend_retry_witness :
    (initBackendLoop (2 + 3) 7 [⟨false, 4, false⟩, ⟨false, 9, false⟩]).1 =
      some InitOutcome.fatalTimeout ∧
    InitAction.sleep 7 ∈
      (initBackendLoop (2 + 3) 7 [⟨false, 4, false⟩, ⟨false, 9, false⟩]).2 ∧
    (7 : Nat) = 7 := by
  have h := initBackend_retry_behaviour 2 3 7 [⟨false, 4, false⟩, ⟨false, 9, false⟩]
  refine ⟨?_, by decide, ?_⟩
  · exact h.1.mpr ⟨[⟨false, 4, false⟩], ⟨false, 9, false⟩, [], by decide,
      by simp [initContinues], by decide, by decide⟩
  · exact h.2.2.2.2 7 (by decide)

end Fabio
